import Mathlib

/-!
Verification development for the omi-realtime-aichat webhook relay.

JavaScript strings are modelled as lists of UTF-16 code units (`List Nat`);
`jsStr` converts a Lean string literal to that representation (all literals
appearing in the sources are in the Basic Multilingual Plane, where one
character is one code unit).  `String.prototype.toLowerCase` is modelled on
the ASCII range, where it maps each unit `A`..`Z` to `a`..`z` and is the
identity elsewhere; every wake phrase and keyword in the sources is ASCII.
-/

/-- Convert a Lean string literal to the list of UTF-16 code units of the
corresponding JavaScript string. -/
def jsStr (s : String) : List Nat := s.toList.map Char.toNat

/-- One code unit of `toLowerCase` restricted to ASCII: `A`..`Z` (65..90) maps
to `a`..`z` (97..122), everything else is unchanged. -/
def lowerUnit (n : Nat) : Nat := if 65 ≤ n ∧ n ≤ 90 then n + 32 else n

/-- `String.prototype.toLowerCase` on the ASCII range, unit by unit. -/
def lowerStr (s : List Nat) : List Nat := s.map lowerUnit

/-- The JavaScript whitespace set used by `String.prototype.trim`:
tab, LF, VT, FF, CR, space, NBSP, the Unicode space separators,
line/paragraph separators, narrow no-break space, medium mathematical
space, ideographic space, and the BOM. -/
def isJsWhitespace (n : Nat) : Bool :=
  n == 9 || n == 10 || n == 11 || n == 12 || n == 13 || n == 32 ||
  n == 160 || n == 5760 || n == 8192 || n == 8193 || n == 8194 ||
  n == 8195 || n == 8196 || n == 8197 || n == 8198 || n == 8199 ||
  n == 8200 || n == 8201 || n == 8202 || n == 8232 || n == 8233 ||
  n == 8239 || n == 8287 || n == 12288 || n == 65279

/-- `String.prototype.trim`: drop whitespace units from both ends. -/
def trimChars (s : List Nat) : List Nat :=
  (((s.dropWhile isJsWhitespace).reverse).dropWhile isJsWhitespace).reverse

/-- Decidable prefix test on code-unit lists (the shape of a JavaScript
`startsWith` check, and the building block of `includes`/`indexOf`). -/
def isPfx : List Nat → List Nat → Bool
  | [], _ => true
  | _ :: _, [] => false
  | a :: as, b :: bs => a == b && isPfx as bs

/-- `String.prototype.indexOf(pat)`: index of the first occurrence of `pat`
in `s`, or `none` when `pat` does not occur (JavaScript returns `-1`). -/
def idxOfSub (p : List Nat) : List Nat → Option Nat
  | [] => if p = [] then some 0 else none
  | c :: cs => if isPfx p (c :: cs) then some 0 else (idxOfSub p cs).map (fun n => n + 1)

/-- `String.prototype.includes(pat)`. -/
def containsSub (p s : List Nat) : Bool := (idxOfSub p s).isSome

/-- `Array.prototype.join(' ')` on an array of strings. -/
def joinSpace : List (List Nat) → List Nat
  | [] => []
  | [s] => s
  | s :: rest => s ++ 32 :: joinSpace rest

/-- One transcript segment of a webhook payload (`src/server.js` uses only
its `text` field). -/
structure Segment where
  text : List Nat
deriving DecidableEq

/-- Outcome of the `POST /omi-webhook` handler in `src/server.js`, one
constructor per `return`/fallthrough path decided by the trigger, help and
extraction logic: the `400` validation failure, the static help payload,
the silent ignore (`res.status(200).json({})`), the
`Transcript ignored - no question provided` response, and the path that
continues into the completion and notification calls carrying the
extracted question. -/
inductive Outcome
  | badRequest
  | helpResponse
  | ignored
  | noQuestion
  | answered (question : List Nat)
deriving DecidableEq

/-- Trigger detection of `src/server.js` lines 216-220: the lowercased full
transcript is tested with `includes` against the four wake-phrase
variants. -/
def hasHeyOmi (t : List Nat) : Bool :=
  containsSub (jsStr "hey omi") t || containsSub (jsStr "hey, omi") t ||
  containsSub (jsStr "hey omi,") t || containsSub (jsStr "hey, omi,") t

/-- The fixed help-keyword list of `src/server.js` lines 223-227. -/
def helpKeywords : List (List Nat) :=
  [jsStr "help", jsStr "what can you do", jsStr "how to use",
   jsStr "instructions", jsStr "guide", jsStr "what do you do",
   jsStr "how does this work", jsStr "what are the commands",
   jsStr "keywords", jsStr "trigger words", jsStr "how to talk to you"]

/-- Help-intent detection of `src/server.js` lines 229-231. -/
def isAskingForHelp (t : List Nat) : Bool :=
  helpKeywords.any (fun k => containsSub k t)

/-- The pattern list of the extraction loop, `src/server.js` line 257, in
its source order (the three capitalized entries are kept even though the
text they are tested against has been lowercased). -/
def heyOmiPatterns : List (List Nat) :=
  [jsStr "hey, omi", jsStr "hey omi,", jsStr "hey, omi,", jsStr "hey omi",
   jsStr "Hey, Omi", jsStr "Hey Omi.", jsStr "Hey Omi,"]

/-- The inner pattern search of `src/server.js` lines 260-269: the first
pattern (in list order) contained in the segment text, together with its
first index there. -/
def findPatternIn : List (List Nat) → List Nat → Option (List Nat × Nat)
  | [], _ => none
  | p :: ps, segText =>
    match idxOfSub p segText with
    | some i => some (p, i)
    | none => findPatternIn ps segText

/-- The question-extraction loop of `src/server.js` lines 252-287,
parameterized by the pattern list: scan segments in order; in the first
segment whose lowercased text contains a pattern, take the original-case
text after the match, trimmed; if that is empty, join the texts of all
later segments with single spaces and trim; stop after that segment.  If
no segment matches, the question stays empty. -/
def extractQuestionWith (pats : List (List Nat)) : List Segment → List Nat
  | [] => []
  | seg :: rest =>
    match findPatternIn pats (lowerStr seg.text) with
    | some (p, i) =>
      let q := trimChars (seg.text.drop (i + p.length))
      if q = [] then trimChars (joinSpace (rest.map (fun s => s.text))) else q
    | none => extractQuestionWith pats rest

/-- The question-extraction loop of `src/server.js` with its source
pattern list. -/
def extractQuestion (segments : List Segment) : List Nat :=
  extractQuestionWith heyOmiPatterns segments

/-- `src/server.js` lines 208-211: the texts of all segments joined with
single spaces and trimmed. -/
def fullTranscript (segments : List Segment) : List Nat :=
  trimChars (joinSpace (segments.map (fun s => s.text)))

/-- The decision logic of the `POST /omi-webhook` handler of
`src/server.js` (lines 193-294): validate the body (`!session_id` is the
falsy check, an empty string), lowercase the joined transcript, branch on
the trigger and help detectors, extract the question, and reject an empty
question; the `answered` outcome is the unique path that continues into
the completion call and the notification call. -/
def handleWebhook (sessionId : List Nat) (segments : List Segment) : Outcome :=
  if sessionId = [] then Outcome.badRequest
  else
    let transcriptLower := lowerStr (fullTranscript segments)
    if hasHeyOmi transcriptLower = false then
      if isAskingForHelp transcriptLower then Outcome.helpResponse else Outcome.ignored
    else
      let question := extractQuestion segments
      if question = [] then Outcome.noQuestion else Outcome.answered question

/-- HTTP status the handler sends for an outcome decided before (or
without) the outbound calls: `400` for the validation failure, `200` for
the help, ignore, no-question and success responses. -/
def statusOf : Outcome → Nat
  | Outcome.badRequest => 400
  | _ => 200

/-- Number of outbound completion-API calls the handler issues for an
outcome: in `src/server.js` only the `answered` path reaches the OpenAI
calls (lines 303-395). -/
def completionCalls : Outcome → Nat
  | Outcome.answered _ => 1
  | _ => 0

/-- Number of outbound notification-API calls the handler issues for an
outcome: in `src/server.js` only the `answered` path reaches
`sendOmiNotification` (line 398). -/
def notificationCalls : Outcome → Nat
  | Outcome.answered _ => 1
  | _ => 0

/-- Decimal rendering of a number, as the code units of the string that
JavaScript template interpolation produces for it. -/
def natRepr (n : Nat) : List Nat := jsStr (toString n)

/-- Response of the notification API as seen by `sendOmiNotification`. -/
structure HttpResponse where
  statusCode : Nat
  body : List Nat
deriving DecidableEq

/-- The response handling of `sendOmiNotification` in `src/server.js`
lines 84-102: a 2xx status resolves with the response body, any other
status rejects with the message `API Error (<status>): <body>`.  The
function issues a single `https.request` and contains no loop or retry. -/
def sendOmiNotification (resp : HttpResponse) : Except (List Nat) (List Nat) :=
  if 200 ≤ resp.statusCode ∧ resp.statusCode < 300 then Except.ok resp.body
  else Except.error (jsStr "API Error (" ++ natRepr resp.statusCode ++ jsStr "): " ++ resp.body)

/-- An error response sent by the webhook handler's `catch` block. -/
structure ErrorResp where
  status : Nat
  error : List Nat
  message : List Nat
deriving DecidableEq

deriving instance DecidableEq for Except

/-- The `catch` block of the `POST /omi-webhook` handler, `src/server.js`
lines 412-437: branch on the rejected error's message and answer `500`
with the matching error label and the message itself. -/
def webhookCatch (msg : List Nat) : ErrorResp :=
  if containsSub (jsStr "API Error") msg then
    { status := 500, error := jsStr "Omi API Error", message := msg }
  else if containsSub (jsStr "OMI_APP_ID not set") msg ||
          containsSub (jsStr "OMI_APP_SECRET not set") msg then
    { status := 500, error := jsStr "Configuration Error", message := msg }
  else
    { status := 500, error := jsStr "Internal Server Error", message := msg }

/-- The notification step of the handler: `src/server.js` line 398 awaits
a single `sendOmiNotification` call (which issues exactly one outbound
request, with no retry); a rejection propagates to the `catch` block.
The first component counts the outbound notification requests issued by
the step; the second is either the resolved data or the error response
the handler sends. -/
def notifyStep (resp : HttpResponse) : Nat × Except ErrorResp (List Nat) :=
  (1,
   match sendOmiNotification resp with
   | Except.ok d => Except.ok d
   | Except.error m => Except.error (webhookCatch m))

/-- The decision logic of the transcript-based `POST /omi-webhook`
variant (`src/unnamed/part_001` lines 362-464): body `{ transcript,
user_id }`, both required (falsy check), ignore unless the lowercased
transcript starts with `hey omi`, then take `transcript.substring(8)`
trimmed as the question and reject it when empty; `answered` is the
unique path that continues into the completion and notification calls. -/
def handleTranscriptWebhook (transcript userId : List Nat) : Outcome :=
  if transcript = [] ∨ userId = [] then Outcome.badRequest
  else if isPfx (jsStr "hey omi") (lowerStr transcript) = false then Outcome.ignored
  else
    let question := trimChars (transcript.drop 8)
    if question = [] then Outcome.noQuestion else Outcome.answered question

/-- One question/answer turn of a session's conversation context. -/
structure ConversationTurn where
  question : List Nat
  answer : List Nat
  timestamp : Nat
deriving DecidableEq

/-- Modelled from the spec: the conversation-context cache itself is not
under `src/` (only its client `src/test-conversation-state.js` is), so
`append` is taken from the spec's words — §4.3 "append(sessionId, turn)
pushes a turn, evicting the oldest if the cap is exceeded" with the §3
FIFO discipline (oldest evicted first). -/
def appendTurn (cap : Nat) (ctx : List ConversationTurn) (t : ConversationTurn) : List ConversationTurn :=
  let l := ctx ++ [t]
  if cap < l.length then l.tail else l

/-- A sequence of appends to one session's context, oldest first. -/
def appendAll (cap : Nat) (ctx : List ConversationTurn) (ts : List ConversationTurn) : List ConversationTurn :=
  ts.foldl (appendTurn cap) ctx

/-- The extraction pattern list with the three capitalized entries
removed, in the order the remaining entries have in the source list;
this is the variant the refinement claim compares the source loop to. -/
def heyOmiPatternsNoCaps : List (List Nat) :=
  [jsStr "hey, omi", jsStr "hey omi,", jsStr "hey, omi,", jsStr "hey omi"]

/-- The extraction loop run with the capitalized patterns removed. -/
def extractQuestionLower (segments : List Segment) : List Nat :=
  extractQuestionWith heyOmiPatternsNoCaps segments

theorem isPfx_iff (p : List Nat) : ∀ s : List Nat, isPfx p s = true ↔ ∃ r, s = p ++ r := by
  induction p with
  | nil =>
    intro s
    simp [isPfx]
  | cons a as ih =>
    intro s
    cases s with
    | nil => simp [isPfx]
    | cons b bs =>
      simp only [isPfx, Bool.and_eq_true, beq_iff_eq, ih bs, List.cons_append,
        List.cons.injEq]
      constructor
      · rintro ⟨hab, r, hr⟩
        exact ⟨r, hab.symm, hr⟩
      · rintro ⟨r, hab, hr⟩
        exact ⟨hab.symm, r, hr⟩

theorem containsSub_cons (p : List Nat) (c : Nat) (cs : List Nat) :
    containsSub p (c :: cs) = (isPfx p (c :: cs) || containsSub p cs) := by
  by_cases h : isPfx p (c :: cs) = true
  · simp [containsSub, idxOfSub, h]
  · rw [Bool.not_eq_true] at h
    cases hx : idxOfSub p cs <;> simp [containsSub, idxOfSub, h, hx]

theorem containsSub_iff (p : List Nat) : ∀ s : List Nat,
    containsSub p s = true ↔ ∃ l r, s = l ++ (p ++ r) := by
  intro s
  induction s with
  | nil =>
    simp only [containsSub, idxOfSub]
    by_cases hp : p = []
    · subst hp
      simp
    · simp only [if_neg hp, Option.isSome_none, Bool.false_eq_true, false_iff]
      rintro ⟨l, r, hr⟩
      rcases l with _ | ⟨x, l⟩
      · rcases p with _ | ⟨y, p⟩
        · exact hp rfl
        · simp at hr
      · simp at hr
  | cons c cs ih =>
    rw [containsSub_cons]
    simp only [Bool.or_eq_true, isPfx_iff, ih]
    constructor
    · rintro (⟨r, hr⟩ | ⟨l, r, hr⟩)
      · exact ⟨[], r, by simpa using hr⟩
      · exact ⟨c :: l, r, by simp [hr]⟩
    · rintro ⟨l, r, hr⟩
      rcases l with _ | ⟨x, l⟩
      · exact Or.inl ⟨r, by simpa using hr⟩
      · rw [List.cons_append] at hr
        injection hr with h1 h2
        exact Or.inr ⟨l, r, h2⟩

theorem contains_of_decomp {p s l r : List Nat} (h : s = l ++ (p ++ r)) :
    containsSub p s = true :=
  (containsSub_iff p s).mpr ⟨l, r, h⟩

theorem contains_trans {q p s : List Nat} (h1 : containsSub q p = true)
    (h2 : containsSub p s = true) : containsSub q s = true := by
  rcases (containsSub_iff q p).mp h1 with ⟨l1, r1, hp⟩
  rcases (containsSub_iff p s).mp h2 with ⟨l2, r2, hs⟩
  refine contains_of_decomp (l := l2 ++ l1) (r := r1 ++ r2) ?_
  subst hp
  simp only [hs, List.append_assoc]

theorem joinSpace_decomp {t : List Nat} : ∀ {ls : List (List Nat)}, t ∈ ls →
    ∃ l r, joinSpace ls = l ++ (t ++ r) := by
  intro ls
  induction ls with
  | nil => intro h; exact absurd h (List.not_mem_nil t)
  | cons a ls' ih =>
    intro h
    rcases List.mem_cons.mp h with h | h
    · subst h
      cases ls' with
      | nil => exact ⟨[], [], by simp [joinSpace]⟩
      | cons b ls'' =>
        exact ⟨[], 32 :: joinSpace (b :: ls''), by simp [joinSpace]⟩
    · rcases ih h with ⟨l, r, hr⟩
      cases ls' with
      | nil => exact absurd h (List.not_mem_nil t)
      | cons b ls'' =>
        refine ⟨a ++ 32 :: l, r, ?_⟩
        simp only [joinSpace, hr, List.append_assoc, List.cons_append]

theorem ws_false_of_bounds {n : Nat} (h : (65 ≤ n ∧ n ≤ 90) ∨ (97 ≤ n ∧ n ≤ 122)) :
    isJsWhitespace n = false := by
  simp only [isJsWhitespace, Bool.or_eq_false_iff, beq_eq_false_iff_ne, ne_eq]
  omega

theorem ws_lowerUnit (n : Nat) : isJsWhitespace (lowerUnit n) = isJsWhitespace n := by
  unfold lowerUnit
  split
  · rename_i h
    rw [ws_false_of_bounds (Or.inr (by omega)), ws_false_of_bounds (Or.inl h)]
  · rfl

theorem dropWhile_lower (s : List Nat) :
    (lowerStr s).dropWhile isJsWhitespace = lowerStr (s.dropWhile isJsWhitespace) := by
  induction s with
  | nil => rfl
  | cons a s' ih =>
    simp only [lowerStr, List.map_cons, List.dropWhile_cons, ws_lowerUnit]
    by_cases h : isJsWhitespace a = true
    · simpa [h] using ih
    · rw [Bool.not_eq_true] at h
      simp [h, lowerStr]

theorem lowerStr_reverse (s : List Nat) : lowerStr s.reverse = (lowerStr s).reverse := by
  simp [lowerStr, List.map_reverse]

theorem lowerStr_trimChars (s : List Nat) :
    lowerStr (trimChars s) = trimChars (lowerStr s) := by
  unfold trimChars
  rw [lowerStr_reverse, ← dropWhile_lower, lowerStr_reverse, ← dropWhile_lower]

theorem contains_dropWhile {p : List Nat} {c : Nat} (hc : p.head? = some c)
    (hw : isJsWhitespace c = false) :
    ∀ {s : List Nat}, containsSub p s = true →
      containsSub p (s.dropWhile isJsWhitespace) = true := by
  intro s
  induction s with
  | nil => intro h; simpa using h
  | cons a s' ih =>
    intro h
    rw [List.dropWhile_cons]
    by_cases hws : isJsWhitespace a = true
    · rw [if_pos hws]
      rw [containsSub_cons] at h
      rcases Bool.or_eq_true_iff.mp h with h | h
      · exfalso
        rcases p with _ | ⟨c', p'⟩
        · simp at hc
        · injection hc with hc
          subst hc
          simp only [isPfx, Bool.and_eq_true, beq_iff_eq] at h
          rw [h.1] at hw
          rw [hw] at hws
          exact Bool.false_ne_true hws
      · exact ih h
    · rw [Bool.not_eq_true] at hws
      rw [if_neg (by simp [hws])]
      exact h

theorem contains_reverse {p s : List Nat} (h : containsSub p s = true) :
    containsSub p.reverse s.reverse = true := by
  rcases (containsSub_iff p s).mp h with ⟨l, r, hr⟩
  refine contains_of_decomp (l := r.reverse) (r := l.reverse) ?_
  subst hr
  simp [List.reverse_append]

theorem contains_trimChars {p : List Nat} {c d : Nat}
    (hc : p.head? = some c) (hwc : isJsWhitespace c = false)
    (hd : p.reverse.head? = some d) (hwd : isJsWhitespace d = false)
    {s : List Nat} (h : containsSub p s = true) :
    containsSub p (trimChars s) = true := by
  have h1 := contains_dropWhile hc hwc h
  have h2 := contains_reverse h1
  have h3 := contains_dropWhile hd hwd h2
  have h4 := contains_reverse h3
  rw [List.reverse_reverse] at h4
  exact h4

theorem lowerStr_not_upper {u : Nat} {s : List Nat} (h : u ∈ lowerStr s) :
    ¬(65 ≤ u ∧ u ≤ 90) := by
  rcases List.mem_map.mp h with ⟨v, _, hv⟩
  subst hv
  unfold lowerUnit
  split <;> omega

theorem idxOfSub_upper_none {p : List Nat} {u : Nat} (hu : u ∈ p)
    (hb : 65 ≤ u) (hb2 : u ≤ 90) (s : List Nat) :
    idxOfSub p (lowerStr s) = none := by
  by_contra h
  have hsome : containsSub p (lowerStr s) = true := by
    simp only [containsSub, Option.isSome]
    cases hx : idxOfSub p (lowerStr s)
    · exact absurd hx h
    · rfl
  rcases (containsSub_iff p (lowerStr s)).mp hsome with ⟨l, r, hr⟩
  have hmem : u ∈ lowerStr s := by
    rw [hr]
    simp only [List.mem_append]
    exact Or.inr (Or.inl hu)
  exact lowerStr_not_upper hmem ⟨hb, hb2⟩

theorem findPatternIn_some {p : List Nat} {i : Nat} :
    ∀ {pats : List (List Nat)} {x : List Nat},
      findPatternIn pats x = some (p, i) → p ∈ pats ∧ idxOfSub p x = some i := by
  intro pats
  induction pats with
  | nil => intro x h; simp [findPatternIn] at h
  | cons q ps ih =>
    intro x h
    simp only [findPatternIn] at h
    cases hx : idxOfSub q x with
    | some j =>
      rw [hx] at h
      injection h with h
      injection h with h1 h2
      subst h1; subst h2
      exact ⟨List.mem_cons_self q ps, hx⟩
    | none =>
      rw [hx] at h
      rcases ih h with ⟨hmem, hidx⟩
      exact ⟨List.mem_cons_of_mem q hmem, hidx⟩

theorem hasHeyOmi_of_segMatch {segments : List Segment} {seg : Segment} {p : List Nat} {i : Nat}
    (hmem : seg ∈ segments)
    (hfind : findPatternIn heyOmiPatterns (lowerStr seg.text) = some (p, i)) :
    hasHeyOmi (lowerStr (fullTranscript segments)) = true := by
  rcases findPatternIn_some hfind with ⟨hp, hidx⟩
  have hpc : containsSub p (lowerStr seg.text) = true := by
    simp [containsSub, hidx]
  have hq : ∃ q, (q = jsStr "hey omi" ∨ q = jsStr "hey, omi") ∧ containsSub q p = true := by
    simp only [heyOmiPatterns, List.mem_cons, List.not_mem_nil, or_false] at hp
    rcases hp with h | h | h | h | h | h | h
    · exact ⟨jsStr "hey, omi", Or.inr rfl, by rw [h]; decide⟩
    · exact ⟨jsStr "hey omi", Or.inl rfl, by rw [h]; decide⟩
    · exact ⟨jsStr "hey, omi", Or.inr rfl, by rw [h]; decide⟩
    · exact ⟨jsStr "hey omi", Or.inl rfl, by rw [h]; decide⟩
    · rw [h] at hidx
      rw [idxOfSub_upper_none (u := 72) (by decide) (by decide) (by decide) seg.text] at hidx
      exact Option.noConfusion hidx
    · rw [h] at hidx
      rw [idxOfSub_upper_none (u := 72) (by decide) (by decide) (by decide) seg.text] at hidx
      exact Option.noConfusion hidx
    · rw [h] at hidx
      rw [idxOfSub_upper_none (u := 72) (by decide) (by decide) (by decide) seg.text] at hidx
      exact Option.noConfusion hidx
  rcases hq with ⟨q, hq12, hqp⟩
  have h1 : containsSub q (lowerStr seg.text) = true := contains_trans hqp hpc
  have hmem2 : seg.text ∈ segments.map (fun s => s.text) := List.mem_map_of_mem _ hmem
  rcases joinSpace_decomp hmem2 with ⟨l, r, hjoin⟩
  have h2 : containsSub (lowerStr seg.text)
      (lowerStr (joinSpace (segments.map (fun s => s.text)))) = true := by
    refine contains_of_decomp (l := lowerStr l) (r := lowerStr r) ?_
    rw [hjoin]
    simp [lowerStr]
  have h3 : containsSub q (lowerStr (joinSpace (segments.map (fun s => s.text)))) = true :=
    contains_trans h1 h2
  rcases hq12 with h | h <;> subst h
  · have h4 : containsSub (jsStr "hey omi") (lowerStr (fullTranscript segments)) = true := by
      unfold fullTranscript
      rw [lowerStr_trimChars]
      exact contains_trimChars (c := 104) (d := 105) (by decide) (by decide)
        (by decide) (by decide) h3
    simp [hasHeyOmi, h4]
  · have h4 : containsSub (jsStr "hey, omi") (lowerStr (fullTranscript segments)) = true := by
      unfold fullTranscript
      rw [lowerStr_trimChars]
      exact contains_trimChars (c := 104) (d := 105) (by decide) (by decide)
        (by decide) (by decide) h3
    simp [hasHeyOmi, h4]

theorem extractWith_append_none {pats : List (List Nat)} {rest : List Segment} :
    ∀ {pre : List Segment}, (∀ s ∈ pre, findPatternIn pats (lowerStr s.text) = none) →
      extractQuestionWith pats (pre ++ rest) = extractQuestionWith pats rest := by
  intro pre
  induction pre with
  | nil => intro _; rfl
  | cons a pre' ih =>
    intro h
    have ha := h a (List.mem_cons_self a pre')
    rw [List.cons_append]
    simp only [extractQuestionWith, ha]
    exact ih (fun s hs => h s (List.mem_cons_of_mem a hs))

theorem findPatternIn_lower_eq (x : List Nat) :
    findPatternIn heyOmiPatterns (lowerStr x) = findPatternIn heyOmiPatternsNoCaps (lowerStr x) := by
  have h5 := idxOfSub_upper_none (p := jsStr "Hey, Omi") (u := 72)
    (by decide) (by decide) (by decide) x
  have h6 := idxOfSub_upper_none (p := jsStr "Hey Omi.") (u := 72)
    (by decide) (by decide) (by decide) x
  have h7 := idxOfSub_upper_none (p := jsStr "Hey Omi,") (u := 72)
    (by decide) (by decide) (by decide) x
  simp only [heyOmiPatterns, heyOmiPatternsNoCaps, findPatternIn, h5, h6, h7]

theorem appendAll_drop (cap : Nat) :
    ∀ (ts ctx : List ConversationTurn), ctx.length ≤ cap →
      appendAll cap ctx ts = (ctx ++ ts).drop (ctx.length + ts.length - cap) := by
  intro ts
  induction ts with
  | nil =>
    intro ctx h
    unfold appendAll
    simp [Nat.sub_eq_zero_of_le h]
  | cons t ts' ih =>
    intro ctx h
    have hstep : appendAll cap ctx (t :: ts') = appendAll cap (appendTurn cap ctx t) ts' := rfl
    rw [hstep]
    by_cases hlt : ctx.length < cap
    · have hat : appendTurn cap ctx t = ctx ++ [t] := by
        unfold appendTurn
        rw [if_neg (by simp only [List.length_append, List.length_singleton, List.length_cons, List.length_nil]; omega)]
      rw [hat, ih (ctx ++ [t]) (by simp only [List.length_append, List.length_singleton, List.length_cons, List.length_nil]; omega)]
      congr 1
      · simp only [List.length_append, List.length_singleton, List.length_cons, List.length_nil]
        omega
      · simp [List.append_assoc]
    · have hceq : ctx.length = cap := Nat.le_antisymm h (Nat.le_of_not_lt hlt)
      obtain ⟨c, l', hcx⟩ := List.exists_cons_of_ne_nil (l := ctx ++ [t]) (by simp)
      have hat : appendTurn cap ctx t = l' := by
        unfold appendTurn
        rw [if_pos (by simp only [List.length_append, List.length_singleton, List.length_cons, List.length_nil]; omega)]
        rw [hcx]
        rfl
      have hl' : l'.length = cap := by
        have hlen := congrArg List.length hcx
        simp only [List.length_append, List.length_singleton, List.length_cons, List.length_nil] at hlen
        omega
      rw [hat, ih l' (le_of_eq hl')]
      have h1 : ctx ++ t :: ts' = c :: (l' ++ ts') := by
        rw [show ctx ++ t :: ts' = (ctx ++ [t]) ++ ts' by simp [List.append_assoc], hcx]
        simp
      rw [h1, hl', hceq]
      simp only [List.length_cons]
      rw [show cap + ts'.length - cap = ts'.length from by omega]
      rw [show cap + (ts'.length + 1) - cap = ts'.length + 1 from by omega]
      rw [List.drop_succ_cons]

/-- C1: for every webhook request whose first wake-phrase-matching segment
has a non-empty trimmed remainder after the first matched variant
(variants tried in the source's fixed priority order), the question the
`POST /omi-webhook` handler extracts — and carries into the answered
outcome — is exactly that trimmed remainder of the segment's
original-case text. -/
theorem wake_segment_remainder_question
    (sid : List Nat) (pre post : List Segment) (seg : Segment) (p : List Nat) (i : Nat)
    (hsid : sid ≠ [])
    (hpre : ∀ s ∈ pre, findPatternIn heyOmiPatterns (lowerStr s.text) = none)
    (hfind : findPatternIn heyOmiPatterns (lowerStr seg.text) = some (p, i))
    (hq : trimChars (seg.text.drop (i + p.length)) ≠ []) :
    handleWebhook sid (pre ++ seg :: post) =
      Outcome.answered (trimChars (seg.text.drop (i + p.length))) := by
  have hmem : seg ∈ pre ++ seg :: post :=
    List.mem_append.mpr (Or.inr (List.mem_cons_self seg post))
  have htrig := hasHeyOmi_of_segMatch hmem hfind
  have hext : extractQuestion (pre ++ seg :: post) =
      trimChars (seg.text.drop (i + p.length)) := by
    unfold extractQuestion
    rw [extractWith_append_none hpre]
    simp only [extractQuestionWith, hfind]
    rw [if_neg hq]
  simp [handleWebhook, hsid, htrig, hext, hq]

/-- Witness for C1 at the spec's example:
`segments = [{text: "Hey Omi, what's 2+2?"}]` yields the question
`"what's 2+2?"`. -/
theorem wake_segment_remainder_question_witness :
    handleWebhook (jsStr "session1") [⟨jsStr "Hey Omi, what\x27s 2+2?"⟩] =
      Outcome.answered (jsStr "what\x27s 2+2?") :=
  (wake_segment_remainder_question (jsStr "session1") [] []
    ⟨jsStr "Hey Omi, what\x27s 2+2?"⟩ (jsStr "hey omi,") 0
    (by decide) (by simp) (by decide) (by decide)).trans (by decide)

/-- C2: when the first wake-phrase-matching segment has an empty trimmed
remainder after the matched variant, the extracted question is the
trimmed, single-space-joined concatenation of the texts of all segments
strictly after it. -/
theorem empty_remainder_joins_later_segments
    (pre post : List Segment) (seg : Segment) (p : List Nat) (i : Nat)
    (hpre : ∀ s ∈ pre, findPatternIn heyOmiPatterns (lowerStr s.text) = none)
    (hfind : findPatternIn heyOmiPatterns (lowerStr seg.text) = some (p, i))
    (hq : trimChars (seg.text.drop (i + p.length)) = []) :
    extractQuestion (pre ++ seg :: post) =
      trimChars (joinSpace (post.map (fun s => s.text))) := by
  unfold extractQuestion
  rw [extractWith_append_none hpre]
  simp only [extractQuestionWith, hfind]
  rw [if_pos hq]

/-- Witness for C2 at the spec's example:
`segments = [{text: "Hey Omi"}, {text: "what's the capital of France?"}]`
yields the question `"what's the capital of France?"`. -/
theorem empty_remainder_joins_later_segments_witness :
    extractQuestion [⟨jsStr "Hey Omi"⟩, ⟨jsStr "what\x27s the capital of France?"⟩] =
      jsStr "what\x27s the capital of France?" :=
  (empty_remainder_joins_later_segments []
    [⟨jsStr "what\x27s the capital of France?"⟩] ⟨jsStr "Hey Omi"⟩
    (jsStr "hey omi") 0 (by simp) (by decide) (by decide)).trans (by decide)

/-- C3: a valid request whose joined, lowercased transcript contains no
wake-phrase variant and no help keyword gets the silent-ignore outcome
with HTTP 200 and no outbound completion or notification call. -/
theorem no_trigger_no_help_ignored (sid : List Nat) (segments : List Segment)
    (hsid : sid ≠ [])
    (hvar : ∀ v ∈ [jsStr "hey omi", jsStr "hey, omi", jsStr "hey omi,", jsStr "hey, omi,"],
      containsSub v (lowerStr (fullTranscript segments)) = false)
    (hkw : ∀ k ∈ helpKeywords, containsSub k (lowerStr (fullTranscript segments)) = false) :
    handleWebhook sid segments = Outcome.ignored ∧
    statusOf (handleWebhook sid segments) = 200 ∧
    completionCalls (handleWebhook sid segments) = 0 ∧
    notificationCalls (handleWebhook sid segments) = 0 := by
  have htrig : hasHeyOmi (lowerStr (fullTranscript segments)) = false := by
    unfold hasHeyOmi
    rw [hvar _ (by simp), hvar _ (by simp), hvar _ (by simp), hvar _ (by simp)]
    rfl
  have hhelp : isAskingForHelp (lowerStr (fullTranscript segments)) = false := by
    unfold isAskingForHelp
    cases h : helpKeywords.any (fun k => containsSub k (lowerStr (fullTranscript segments)))
    · rfl
    · rcases List.any_eq_true.mp h with ⟨k, hk, hck⟩
      rw [hkw k hk] at hck
      exact absurd hck (by simp)
  have hw : handleWebhook sid segments = Outcome.ignored := by
    simp [handleWebhook, hsid, htrig, hhelp]
  exact ⟨hw, by rw [hw]; decide, by rw [hw]; decide, by rw [hw]; decide⟩

/-- Witness for C3 at the spec's example transcript
`"just chatting about lunch"`. -/
theorem no_trigger_no_help_ignored_witness :
    handleWebhook (jsStr "s") [⟨jsStr "just chatting about lunch"⟩] = Outcome.ignored ∧
    statusOf (handleWebhook (jsStr "s") [⟨jsStr "just chatting about lunch"⟩]) = 200 ∧
    completionCalls (handleWebhook (jsStr "s") [⟨jsStr "just chatting about lunch"⟩]) = 0 ∧
    notificationCalls (handleWebhook (jsStr "s") [⟨jsStr "just chatting about lunch"⟩]) = 0 :=
  no_trigger_no_help_ignored (jsStr "s") [⟨jsStr "just chatting about lunch"⟩]
    (by decide) (by decide) (by decide)

/-- C4: a valid request whose joined, lowercased transcript contains at
least one help keyword but no wake-phrase variant gets the static help
outcome with HTTP 200 and no outbound completion or notification call. -/
theorem help_keyword_without_trigger (sid : List Nat) (segments : List Segment)
    (k : List Nat)
    (hsid : sid ≠ [])
    (hk : k ∈ helpKeywords)
    (hck : containsSub k (lowerStr (fullTranscript segments)) = true)
    (hvar : ∀ v ∈ [jsStr "hey omi", jsStr "hey, omi", jsStr "hey omi,", jsStr "hey, omi,"],
      containsSub v (lowerStr (fullTranscript segments)) = false) :
    handleWebhook sid segments = Outcome.helpResponse ∧
    statusOf (handleWebhook sid segments) = 200 ∧
    completionCalls (handleWebhook sid segments) = 0 ∧
    notificationCalls (handleWebhook sid segments) = 0 := by
  have htrig : hasHeyOmi (lowerStr (fullTranscript segments)) = false := by
    unfold hasHeyOmi
    rw [hvar _ (by simp), hvar _ (by simp), hvar _ (by simp), hvar _ (by simp)]
    rfl
  have hhelp : isAskingForHelp (lowerStr (fullTranscript segments)) = true := by
    unfold isAskingForHelp
    exact List.any_eq_true.mpr ⟨k, hk, hck⟩
  have hw : handleWebhook sid segments = Outcome.helpResponse := by
    simp [handleWebhook, hsid, htrig, hhelp]
  exact ⟨hw, by rw [hw]; decide, by rw [hw]; decide, by rw [hw]; decide⟩

/-- Witness for C4 at the transcript `"can you help me"`, which contains
the help keyword `"help"` and no wake phrase. -/
theorem help_keyword_without_trigger_witness :
    handleWebhook (jsStr "s") [⟨jsStr "can you help me"⟩] = Outcome.helpResponse ∧
    statusOf (handleWebhook (jsStr "s") [⟨jsStr "can you help me"⟩]) = 200 ∧
    completionCalls (handleWebhook (jsStr "s") [⟨jsStr "can you help me"⟩]) = 0 ∧
    notificationCalls (handleWebhook (jsStr "s") [⟨jsStr "can you help me"⟩]) = 0 :=
  help_keyword_without_trigger (jsStr "s") [⟨jsStr "can you help me"⟩] (jsStr "help")
    (by decide) (by decide) (by decide) (by decide)

/-- C5: a valid request on which the wake-phrase trigger fires but the
extraction loop produces the empty question gets the no-question outcome
— distinct from the no-trigger outcome — with HTTP 200 and no outbound
completion or notification call. -/
theorem trigger_without_question_ignored (sid : List Nat) (segments : List Segment)
    (hsid : sid ≠ [])
    (htrig : hasHeyOmi (lowerStr (fullTranscript segments)) = true)
    (hext : extractQuestion segments = []) :
    handleWebhook sid segments = Outcome.noQuestion ∧
    Outcome.noQuestion ≠ Outcome.ignored ∧
    statusOf (handleWebhook sid segments) = 200 ∧
    completionCalls (handleWebhook sid segments) = 0 ∧
    notificationCalls (handleWebhook sid segments) = 0 := by
  have hw : handleWebhook sid segments = Outcome.noQuestion := by
    simp [handleWebhook, hsid, htrig, hext]
  exact ⟨hw, by decide, by rw [hw]; decide, by rw [hw]; decide, by rw [hw]; decide⟩

/-- Witness for C5 at `segments = [{text: "hey omi"}]`: the trigger fires
and the remainder is empty with no later segments. -/
theorem trigger_without_question_ignored_witness :
    handleWebhook (jsStr "s") [⟨jsStr "hey omi"⟩] = Outcome.noQuestion ∧
    Outcome.noQuestion ≠ Outcome.ignored ∧
    statusOf (handleWebhook (jsStr "s") [⟨jsStr "hey omi"⟩]) = 200 ∧
    completionCalls (handleWebhook (jsStr "s") [⟨jsStr "hey omi"⟩]) = 0 ∧
    notificationCalls (handleWebhook (jsStr "s") [⟨jsStr "hey omi"⟩]) = 0 :=
  trigger_without_question_ignored (jsStr "s") [⟨jsStr "hey omi"⟩]
    (by decide) (by decide) (by decide)

/-- C6: a non-2xx response from the notification API makes the handler's
notification step issue exactly one outbound request (no retry) and
produce the 500 `Omi API Error` payload whose message is
`API Error (<status>): <body>` — it contains both the upstream status
code and the upstream response body. -/
theorem notification_failure_surfaces_500 (resp : HttpResponse)
    (h : ¬(200 ≤ resp.statusCode ∧ resp.statusCode < 300)) :
    (notifyStep resp).1 = 1 ∧
    (notifyStep resp).2 = Except.error
      { status := 500, error := jsStr "Omi API Error",
        message := jsStr "API Error (" ++ natRepr resp.statusCode ++ jsStr "): " ++ resp.body } ∧
    containsSub (natRepr resp.statusCode)
      (jsStr "API Error (" ++ natRepr resp.statusCode ++ jsStr "): " ++ resp.body) = true ∧
    containsSub resp.body
      (jsStr "API Error (" ++ natRepr resp.statusCode ++ jsStr "): " ++ resp.body) = true := by
  have hmsg : containsSub (jsStr "API Error")
      (jsStr "API Error (" ++ natRepr resp.statusCode ++ jsStr "): " ++ resp.body) = true := by
    refine contains_of_decomp
      (l := []) (r := jsStr " (" ++ natRepr resp.statusCode ++ jsStr "): " ++ resp.body) ?_
    rw [show jsStr "API Error (" = jsStr "API Error" ++ jsStr " (" from by decide]
    simp [List.append_assoc]
  have hsend : sendOmiNotification resp =
      Except.error (jsStr "API Error (" ++ natRepr resp.statusCode ++ jsStr "): " ++ resp.body) := by
    unfold sendOmiNotification
    rw [if_neg h]
  have hcatch : webhookCatch
      (jsStr "API Error (" ++ natRepr resp.statusCode ++ jsStr "): " ++ resp.body) =
      { status := 500, error := jsStr "Omi API Error",
        message := jsStr "API Error (" ++ natRepr resp.statusCode ++ jsStr "): " ++ resp.body } := by
    unfold webhookCatch
    rw [if_pos hmsg]
  refine ⟨rfl, ?_, ?_, ?_⟩
  · have h2 : (notifyStep resp).2 = Except.error (webhookCatch
        (jsStr "API Error (" ++ natRepr resp.statusCode ++ jsStr "): " ++ resp.body)) := by
      unfold notifyStep
      rw [hsend]
    rw [h2, hcatch]
  · refine contains_of_decomp
      (l := jsStr "API Error (") (r := jsStr "): " ++ resp.body) ?_
    simp [List.append_assoc]
  · refine contains_of_decomp
      (l := jsStr "API Error (" ++ natRepr resp.statusCode ++ jsStr "): ") (r := []) ?_
    simp [List.append_assoc]

/-- Witness for C6 at the spec's simulated `401` with body
`"Unauthorized"`. -/
theorem notification_failure_surfaces_500_witness :
    (notifyStep ⟨401, jsStr "Unauthorized"⟩).1 = 1 ∧
    (notifyStep ⟨401, jsStr "Unauthorized"⟩).2 = Except.error
      { status := 500, error := jsStr "Omi API Error",
        message := jsStr "API Error (" ++ natRepr 401 ++ jsStr "): " ++ jsStr "Unauthorized" } ∧
    containsSub (natRepr 401)
      (jsStr "API Error (" ++ natRepr 401 ++ jsStr "): " ++ jsStr "Unauthorized") = true ∧
    containsSub (jsStr "Unauthorized")
      (jsStr "API Error (" ++ natRepr 401 ++ jsStr "): " ++ jsStr "Unauthorized") = true :=
  notification_failure_surfaces_500 ⟨401, jsStr "Unauthorized"⟩ (by decide)

/-- C7 counterexample: in the transcript variant the code computes the
question as `transcript.substring(8).trim()`, while the claim predicts
the trimmed remainder after the 7-unit matched substring `"hey omi"`; at
`transcript = "hey omi, hi"` the code answers `"hi"`, which differs from
the claim's predicted `", hi"`. -/
theorem transcript_variant_offby_counterexample :
    isPfx (jsStr "hey omi") (lowerStr (jsStr "hey omi, hi")) = true ∧
    handleTranscriptWebhook (jsStr "hey omi, hi") (jsStr "user1") =
      Outcome.answered (jsStr "hi") ∧
    handleTranscriptWebhook (jsStr "hey omi, hi") (jsStr "user1") ≠
      Outcome.answered (trimChars ((jsStr "hey omi, hi").drop (jsStr "hey omi").length)) := by
  decide

/-- C7 amended: in the transcript variant, for every valid request whose
lowercased transcript starts with `hey omi`, the extracted question is
the trimmed remainder of the transcript after its first 8 units (the
7-unit wake phrase plus one further unit), and an empty such remainder
yields the no-question outcome, which issues no completion or
notification call. -/
theorem transcript_variant_drops_eight (transcript userId : List Nat)
    (ht : transcript ≠ []) (hu : userId ≠ [])
    (hpre : isPfx (jsStr "hey omi") (lowerStr transcript) = true) :
    handleTranscriptWebhook transcript userId =
      (if trimChars (transcript.drop 8) = [] then Outcome.noQuestion
       else Outcome.answered (trimChars (transcript.drop 8))) ∧
    completionCalls Outcome.noQuestion = 0 ∧
    notificationCalls Outcome.noQuestion = 0 ∧
    statusOf Outcome.noQuestion = 200 := by
  refine ⟨?_, rfl, rfl, rfl⟩
  unfold handleTranscriptWebhook
  rw [if_neg (not_or.mpr ⟨ht, hu⟩), hpre]
  simp

/-- Witness for the amended C7 at `transcript = "hey omi"`: the remainder
after the first 8 units is empty and the outcome is no-question. -/
theorem transcript_variant_drops_eight_witness :
    handleTranscriptWebhook (jsStr "hey omi") (jsStr "u1") =
      (if trimChars ((jsStr "hey omi").drop 8) = [] then Outcome.noQuestion
       else Outcome.answered (trimChars ((jsStr "hey omi").drop 8))) ∧
    completionCalls Outcome.noQuestion = 0 ∧
    notificationCalls Outcome.noQuestion = 0 ∧
    statusOf Outcome.noQuestion = 200 :=
  transcript_variant_drops_eight (jsStr "hey omi") (jsStr "u1")
    (by decide) (by decide) (by decide)

/-- C8: appending a turn keeps a session's context at or below the cap,
and after `cap + 1` appends into an empty context the result is exactly
the most recent `cap` turns in insertion order, with the oldest turn
evicted (FIFO) and — the appended turns being pairwise distinct — absent. -/
theorem conversation_cap_fifo (cap : Nat) (ts : List ConversationTurn)
    (t0 t : ConversationTurn) (ctx : List ConversationTurn)
    (hcap : 0 < cap) (hlen : ts.length = cap + 1) (hnd : ts.Nodup)
    (h0 : ts.head? = some t0) (hctx : ctx.length ≤ cap) :
    (appendTurn cap ctx t).length ≤ cap ∧
    appendAll cap [] ts = ts.tail ∧
    (appendAll cap [] ts).length = cap ∧
    t0 ∉ appendAll cap [] ts := by
  have hinv : (appendTurn cap ctx t).length ≤ cap := by
    show (if cap < (ctx ++ [t]).length then (ctx ++ [t]).tail else ctx ++ [t]).length ≤ cap
    split <;> rename_i hx <;>
      simp only [List.length_tail, List.length_append, List.length_singleton,
        List.length_nil, List.length_cons, Nat.not_lt] at hx ⊢ <;> omega
  have hmain : appendAll cap [] ts = ts.tail := by
    have hd := appendAll_drop cap ts [] (by simp)
    simp only [List.nil_append, List.length_nil, Nat.zero_add] at hd
    rw [hd, hlen, show cap + 1 - cap = 1 from by omega]
    exact List.drop_one ts
  have hlen2 : (appendAll cap [] ts).length = cap := by
    rw [hmain, List.length_tail, hlen]
    omega
  have habs : t0 ∉ appendAll cap [] ts := by
    rw [hmain]
    cases ts with
    | nil => exact absurd h0 (by simp)
    | cons a l =>
      have ha : a = t0 := by
        simpa using h0
      subst ha
      simpa using (List.nodup_cons.mp hnd).1
  exact ⟨hinv, hmain, hlen2, habs⟩

/-- Witness for C8 at cap 2 with three distinct turns: the first turn is
evicted and the last two remain in order. -/
theorem conversation_cap_fifo_witness :
    (appendTurn 2 [⟨jsStr "q0", jsStr "a0", 0⟩] ⟨jsStr "q9", jsStr "a9", 9⟩).length ≤ 2 ∧
    appendAll 2 [] [⟨jsStr "q1", jsStr "a1", 1⟩, ⟨jsStr "q2", jsStr "a2", 2⟩,
      ⟨jsStr "q3", jsStr "a3", 3⟩] =
      [⟨jsStr "q1", jsStr "a1", 1⟩, ⟨jsStr "q2", jsStr "a2", 2⟩,
        ⟨jsStr "q3", jsStr "a3", 3⟩].tail ∧
    (appendAll 2 [] [⟨jsStr "q1", jsStr "a1", 1⟩, ⟨jsStr "q2", jsStr "a2", 2⟩,
      ⟨jsStr "q3", jsStr "a3", 3⟩]).length = 2 ∧
    (⟨jsStr "q1", jsStr "a1", 1⟩ : ConversationTurn) ∉
      appendAll 2 [] [⟨jsStr "q1", jsStr "a1", 1⟩, ⟨jsStr "q2", jsStr "a2", 2⟩,
        ⟨jsStr "q3", jsStr "a3", 3⟩] :=
  conversation_cap_fifo 2
    [⟨jsStr "q1", jsStr "a1", 1⟩, ⟨jsStr "q2", jsStr "a2", 2⟩, ⟨jsStr "q3", jsStr "a3", 3⟩]
    ⟨jsStr "q1", jsStr "a1", 1⟩ ⟨jsStr "q9", jsStr "a9", 9⟩ [⟨jsStr "q0", jsStr "a0", 0⟩]
    (by decide) (by decide) (by decide) (by decide) (by decide)

/-- C9: when the joined, lowercased transcript contains a wake-phrase
variant (for example only across a segment boundary) while no single
segment's lowercased text contains any pattern, the handler passes the
trigger check, extracts the empty question, and returns the no-question
outcome with HTTP 200 and no outbound completion or notification call. -/
theorem boundary_trigger_empty_question (sid : List Nat) (segments : List Segment)
    (hsid : sid ≠ [])
    (htrig : hasHeyOmi (lowerStr (fullTranscript segments)) = true)
    (hseg : ∀ seg ∈ segments, findPatternIn heyOmiPatterns (lowerStr seg.text) = none) :
    handleWebhook sid segments = Outcome.noQuestion ∧
    statusOf (handleWebhook sid segments) = 200 ∧
    completionCalls (handleWebhook sid segments) = 0 ∧
    notificationCalls (handleWebhook sid segments) = 0 := by
  have hext : extractQuestion segments = [] := by
    have hd := @extractWith_append_none heyOmiPatterns [] segments hseg
    rw [List.append_nil] at hd
    exact hd
  have hw : handleWebhook sid segments = Outcome.noQuestion := by
    simp [handleWebhook, hsid, htrig, hext]
  exact ⟨hw, by rw [hw]; decide, by rw [hw]; decide, by rw [hw]; decide⟩

/-- Witness for C9 at `segments = [{text: "hey"}, {text: "omi, what time
is it?"}]`: the variant appears only across the segment boundary, later
segments contain non-empty text, and the outcome is no-question. -/
theorem boundary_trigger_empty_question_witness :
    handleWebhook (jsStr "s") [⟨jsStr "hey"⟩, ⟨jsStr "omi, what time is it?"⟩] =
      Outcome.noQuestion ∧
    statusOf (handleWebhook (jsStr "s") [⟨jsStr "hey"⟩, ⟨jsStr "omi, what time is it?"⟩]) = 200 ∧
    completionCalls (handleWebhook (jsStr "s")
      [⟨jsStr "hey"⟩, ⟨jsStr "omi, what time is it?"⟩]) = 0 ∧
    notificationCalls (handleWebhook (jsStr "s")
      [⟨jsStr "hey"⟩, ⟨jsStr "omi, what time is it?"⟩]) = 0 :=
  boundary_trigger_empty_question (jsStr "s")
    [⟨jsStr "hey"⟩, ⟨jsStr "omi, what time is it?"⟩]
    (by decide) (by decide) (by decide)

/-- C10: the question-extraction loop is extensionally equal to the
variant whose pattern list omits the capitalized entries, because each
segment's text is lowercased before the substring tests and a lowercased
string never contains a pattern holding an uppercase ASCII letter. -/
theorem extraction_ignores_capital_patterns (segments : List Segment) :
    extractQuestion segments = extractQuestionLower segments := by
  unfold extractQuestion extractQuestionLower
  induction segments with
  | nil => rfl
  | cons seg rest ih =>
    simp only [extractQuestionWith]
    rw [findPatternIn_lower_eq seg.text]
    cases h : findPatternIn heyOmiPatternsNoCaps (lowerStr seg.text) with
    | some pi => rfl
    | none => exact ih
